import Mathlib

/-!
Verification of the `dap_taltech` harvesting utilities

A shallow embedding, in Lean 4, of the OpenAlex harvesting utilities of the
`dap_taltech` repository (`dap_taltech/utils/oa_api.py`,
`dap_taltech/utils/oa_institutions_api.py`, `dap_taltech/utils/data_getters.py`),
together with theorems settling the specification claims about them.

Modelling conventions:
* Python dicts are modelled as association lists in insertion order
  (`List (String × Val)`); dict iteration in Python follows insertion order,
  matching a left fold over the list.
* JSON-like heterogeneous values are modelled by the inductive type `Val`.
* A Python exception escaping a function is modelled by `Except.error` with the
  exception text; `Except.ok` models normal return.
* Machine integers are positions into a text, hence `Nat`.
* Network traffic is modelled by the list of responses the endpoint would hand
  to successive requests; the generator consumes them in order.
-/

namespace DapTaltech

/-- Heterogeneous JSON-ish values held in a record (one OpenAlex work or
institution, modelled as a Python dict). `null` doubles as pandas `NaN`;
`dt` models a `pandas.Timestamp` produced by `pd.to_datetime`. -/
inductive Val where
  | str (s : String)
  | num (n : Int)
  | invIdx (idx : List (String × List Nat))
  | dt (s : String)
  | null
  | obj
  deriving DecidableEq, Repr

/-- A record (Python dict), in insertion order. -/
abbrev Record := List (String × Val)

/-- Python `max` over a list of naturals: raises (here: `none`) on `[]`,
otherwise folds `max` over the tail starting from the head. -/
def pyMax : List Nat → Option Nat
  | [] => none
  | x :: xs => some (xs.foldl Nat.max x)

/-- Inner loop of `revert_abstract_index`, as `fill_positions word ps acc`:
`for index in indices: recreated_text[index] = word`. -/
def fill_positions (word : String) (ps : List Nat) (acc : List String) : List String :=
  ps.foldl (fun a i => a.set i word) acc

/-- Outer loop of `revert_abstract_index`, as `fill_index idx acc`:
`for word, indices in abstract_inverted_index.items(): ...`. -/
def fill_index (idx : List (String × List Nat)) (acc : List String) : List String :=
  idx.foldl (fun a e => fill_positions e.1 e.2 a) acc

/-- Model of `dap_taltech/utils/oa_api.py`, `revert_abstract_index`: reverts an abstract
inverted index to the original text.  `length_of_text` is one plus the maximum
recorded position (Python `max` raises `ValueError` on an empty sequence, which
is the `Except.error` branch); a buffer of that many empty-string slots is
filled, slot `index` receiving `word`, and the slots are joined by `" "`. -/
def revert_abstract_index (abstract_inverted_index : List (String × List Nat)) :
    Except String String :=
  match pyMax ((abstract_inverted_index.map Prod.snd).flatten) with
  | none => Except.error "ValueError: max() arg is an empty sequence"
  | some m =>
    let length_of_text := m + 1
    let recreated_text := List.replicate length_of_text ""
    Except.ok (String.intercalate " " (fill_index abstract_inverted_index recreated_text))

/-! ### Splitting on whitespace (claim-side notion)

The spec's round-trip property talks of splitting the reconstructed string back
on whitespace.  We split a character list at every `' '` (Python
`str.split(" ")`; on texts without empty or whitespace-carrying words this
agrees with `str.split()`). -/

/-- Split a character list at every space, keeping empty groups. -/
def splitSp : List Char → List (List Char)
  | [] => [[]]
  | c :: cs =>
    if c = ' ' then [] :: splitSp cs
    else
      match splitSp cs with
      | [] => [[c]]
      | g :: gs => (c :: g) :: gs

/-- Split a string on spaces. -/
def split_whitespace (s : String) : List String :=
  (splitSp s.data).map String.mk

/-- Join character lists with single spaces (the character-level image of
`" ".join`). -/
def joinSp : List (List Char) → List Char
  | [] => []
  | [w] => w
  | w :: ws => w ++ ' ' :: joinSp ws

/-! ### Cursor pagination (`works_generator` / `institutions_generator`)

Both generators are the same loop: start at cursor `"*"`, and while the cursor
is truthy, GET the page for the current cursor, read `results`, set the cursor
to `data["meta"].get("next_cursor", False)`, and yield `results`.  The mock
endpoint is modelled by the list of responses it hands to successive requests;
page contents are an arbitrary type `α`. -/

/-- A Python cursor value: either a string or the literal `False` (the default
when the `next_cursor` key is absent). -/
inductive CursorV where
  | str (s : String)
  | fls
  deriving DecidableEq, Repr

/-- Python truthiness of a cursor value (`while cursor:`): `False` is falsy and
a string is truthy iff non-empty. -/
def CursorV.truthy : CursorV → Bool
  | CursorV.str s => s ≠ ""
  | CursorV.fls => false

/-- One JSON response: the `results` payload and the `meta.next_cursor` field
(`none` models an absent key). -/
structure OAResp (α : Type) where
  results : α
  next_cursor : Option CursorV
  deriving Repr

/-- Model of `data["meta"].get("next_cursor", False)`: the next cursor, defaulting to
`False` when the key is absent. -/
def nextCursor {α : Type} (r : OAResp α) : CursorV :=
  r.next_cursor.getD CursorV.fls

/-- The `while cursor:` loop body shared by `works_generator` and
`institutions_generator`, run against the mock responses `rs`: each iteration
sends a request with the current cursor, yields that response's `results`, and
replaces the cursor by the response's next cursor.  The returned trace records,
per iteration, the cursor sent and the page yielded. -/
def cursorLoop {α : Type} : List (OAResp α) → CursorV → List (CursorV × α)
  | [], _ => []
  | r :: rest, c =>
    if c.truthy then (c, r.results) :: cursorLoop rest (nextCursor r)
    else []

/-- Model of `dap_taltech/utils/oa_api.py`, `works_generator`: cursor pagination over the
works endpoint, starting from cursor `"*"`. -/
def works_generator {α : Type} (rs : List (OAResp α)) : List (CursorV × α) :=
  cursorLoop rs (CursorV.str "*")

/-- Model of `dap_taltech/utils/oa_institutions_api.py`, `institutions_generator`: the
identical loop over the institutions endpoint. -/
def institutions_generator {α : Type} (rs : List (OAResp α)) : List (CursorV × α) :=
  cursorLoop rs (CursorV.str "*")

/-! ### Harvesting (`get_all_works`, `get_all_institutions`, `main`) -/

/-- The fixed column set `COLUMNS` of `oa_api.py`. -/
def COLUMNS : List String :=
  ["id", "display_name", "publication_date", "primary_location",
   "authorships", "cited_by_count", "counts_by_year", "concepts", "abstract"]

/-- Python `str.replace(old, new)` for non-empty `old`, on character lists,
with fuel (the fuel `l.length` suffices since every step consumes at least one
character when `old` is non-empty). -/
def replaceGo (old new : List Char) : Nat → List Char → List Char
  | 0, l => l
  | _ + 1, [] => []
  | fuel + 1, c :: cs =>
    if old.isPrefixOf (c :: cs) then new ++ replaceGo old new fuel ((c :: cs).drop old.length)
    else c :: replaceGo old new fuel cs

/-- Python `s.replace(old, new)` (all occurrences, left to right; `old` is
non-empty at every call site in the source). -/
def pyReplace (s old new : String) : String :=
  String.mk (replaceGo old.data new.data s.data.length s.data)

/-- Python dict assignment `d[k] = v`: replace the value at an existing key in
place, else append the new key at the end. -/
def setField (r : Record) (k : String) (v : Val) : Record :=
  match r with
  | [] => [(k, v)]
  | (k', v') :: rest => if k' = k then (k, v) :: rest else (k', v') :: setField rest k v

/-- The per-work body of the inner loop of `get_all_works` (which runs *before*
the projection `try` block): log `work["id"]` (a `KeyError`/`AttributeError`
there, or a `ValueError` escaping `revert_abstract_index`, crashes the whole
run: modelled as `none`), strip the `"https://openalex.org/"` prefix from the
id, and when `work.get("abstract_inverted_index")` is truthy (a non-empty
index) store the reverted text under `"abstract"`. -/
def transform_work (work : Record) : Option Record :=
  match work.lookup "id" with
  | some (Val.str s) =>
    let work1 := setField work "id" (Val.str (pyReplace s "https://openalex.org/" ""))
    match work1.lookup "abstract_inverted_index" with
    | some (Val.invIdx idx) =>
      if idx.isEmpty then some work1
      else
        match revert_abstract_index idx with
        | Except.ok text => some (setField work1 "abstract" (Val.str text))
        | Except.error _ => none
    | _ => some work1
  | _ => none

/-- Model of `pd.DataFrame(works)[COLUMNS]`: succeeds iff every column of `COLUMNS`
occurs in at least one record (else pandas raises a `KeyError`, caught by the
`try`/`except`); each row then carries every column, with `NaN` (here
`Val.null`) where a record lacks the key. -/
def projectPage (works : List Record) : Option (List Record) :=
  if COLUMNS.all (fun c => works.any (fun w => (w.lookup c).isSome)) then
    some (works.map (fun w => COLUMNS.map (fun c => (c, (w.lookup c).getD Val.null))))
  else none

/-- The `for work in works:` loop: transform every record of the page in
order; the first crash (`none`) aborts. -/
def transform_works : List Record → Option (List Record)
  | [] => some []
  | w :: ws =>
    match transform_work w, transform_works ws with
    | some tw, some tws => some (tw :: tws)
    | _, _ => none

/-- The page loop of `get_all_works` for one institution id: skip a page whose
`results` are empty, run the per-work transformation (a crash there aborts the
run), and append the projected page, dropping the page when the projection
fails.  Returns the list of appended page tables. -/
def process_pages : List (List Record) → Except String (List (List Record))
  | [] => Except.ok []
  | works :: rest =>
    if works.isEmpty then process_pages rest
    else
      match transform_works works with
      | none => Except.error "unhandled exception in work loop"
      | some tworks =>
        match projectPage tworks with
        | some df => (process_pages rest).map (fun dfs => df :: dfs)
        | none => process_pages rest

/-- A page is harvest-neutral when its `results` are empty (the loop
`continue`s) or its transformed records cannot be projected to `COLUMNS` (the
`except` drops the page). -/
def pageNeutral (p : List Record) : Prop :=
  p = [] ∨ ((transform_works p).isSome ∧
    projectPage ((transform_works p).getD []) = none)

instance (p : List Record) : Decidable (pageNeutral p) := by
  unfold pageNeutral
  infer_instance

/-- The institution loop of `get_all_works`: run the page loop for every
institution id in turn, accumulating all appended page tables into the one
`oa_articles` list (an exception anywhere aborts the whole run). -/
def harvest_insts : List (List (List Record)) → Except String (List (List Record))
  | [] => Except.ok []
  | pages :: rest =>
    match process_pages pages with
    | Except.error e => Except.error e
    | Except.ok dfs =>
      match harvest_insts rest with
      | Except.error e => Except.error e
      | Except.ok more => Except.ok (dfs ++ more)

/-- Model of `dap_taltech/utils/oa_api.py`, `get_all_works`, with the network replaced
by the pages each institution's generator yields: accumulate the per-page
tables over all institution ids, and return `pd.concat` of them, or an empty
table when no page contributed one. -/
def get_all_works (instPages : List (List (List Record))) : Except String (List Record) :=
  (harvest_insts instPages).map (fun oa_articles =>
    if oa_articles.isEmpty then [] else oa_articles.flatten)

/-- Model of `dap_taltech/utils/oa_institutions_api.py`, `get_all_institutions`, with the
network replaced by the list of pages the generator yields: append every
non-empty page, and return the concatenation, or an empty table when no page
was appended. -/
def get_all_institutions (pages : List (List Record)) : List Record :=
  let oa_institutions := pages.foldl (fun acc p => if p.isEmpty then acc else acc ++ [p]) []
  if oa_institutions.isEmpty then [] else oa_institutions.flatten

/-- The `df["id"]` cell of a row. -/
def rowId (r : Record) : Option Val := r.lookup "id"

/-- The `df["publication_date"]` cell of a row. -/
def rowDate (r : Record) : Option Val := r.lookup "publication_date"

/-- pandas `notna` on a cell: `False` on `NaN`/`None` (here `Val.null`) and on
an absent cell, `True` otherwise. -/
def isNotNA : Option Val → Bool
  | some v => v ≠ Val.null
  | none => false

/-- The scan behind `drop_duplicates`: keep a row iff its id was not seen
before, accumulating the set of seen ids. -/
def dropDupSeen (seen : List (Option Val)) : List Record → List Record
  | [] => []
  | r :: rest =>
    if rowId r ∈ seen then dropDupSeen seen rest
    else r :: dropDupSeen (rowId r :: seen) rest

/-- Model of `df.drop_duplicates(subset=["id"])`: keep the first row for each id. -/
def drop_duplicates (rows : List Record) : List Record :=
  dropDupSeen [] rows

/-- Model of `pd.to_datetime` on one cell: parses a (parseable) string to a timestamp
and maps `NaN` to `NaT`; modelled as wrapping the string. -/
def pd_to_datetime : Val → Val
  | Val.str s => Val.dt s
  | v => v

/-- Model of `dap_taltech/utils/oa_api.py`, `main`, the `pipe` over `get_all_works`'s
table: drop duplicate ids (keep first), keep rows with non-null
`publication_date`, reset the index (a no-op on the row list), and convert the
`publication_date` column with `pd.to_datetime`. -/
def main_pipeline (rows : List Record) : List Record :=
  (((drop_duplicates rows).filter (fun r => isNotNA (rowDate r))).map
    (fun r => setField r "publication_date" (pd_to_datetime ((rowDate r).getD Val.null))))

/-! ### `DataGetter` (`data_getters.py`) -/

/-- Which pandas reader a data fetch invokes on which path (or an explicit
unsupported-file-type failure). -/
inductive ReaderCall where
  | read_parquet (path : String)
  | read_csv (path : String)
  | unsupported (file_name : String)
  deriving DecidableEq, Repr

/-- Model of `dap_taltech/utils/data_getters.py`, `DataGetter._fetch_data`: joins the
data directory and the file name and reads the result with `pd.read_parquet`
— unconditionally, whatever the extension. -/
def fetch_data (data_dir file_name : String) : ReaderCall :=
  ReaderCall.read_parquet (data_dir ++ "/" ++ file_name)

/-- Modelled from the spec: the extension dispatch the spec describes for the
data fetch (`.parquet` → columnar reader, `.csv` → delimited reader, anything
else → an explicit "unsupported file type" error).  No such dispatch exists in
`data_getters.py`; this definition exists to be compared with `fetch_data`. -/
def fetch_data_spec (data_dir file_name : String) : ReaderCall :=
  if ".parquet".data.isSuffixOf file_name.data then
    ReaderCall.read_parquet (data_dir ++ "/" ++ file_name)
  else if ".csv".data.isSuffixOf file_name.data then
    ReaderCall.read_csv (data_dir ++ "/" ++ file_name)
  else ReaderCall.unsupported file_name

/-- Model of `DataGetter.get_armenian_job_adverts`: fetches `job_postings.csv`. -/
def get_armenian_job_adverts (data_dir : String) : ReaderCall :=
  fetch_data data_dir "job_postings.csv"

/-- Outcome of `DataGetter.__init__`: whether the one-shot `aws s3 cp`
synchronization was attempted, and whether construction returned normally or
an exception escaped. -/
structure InitTrace where
  syncAttempted : Bool
  result : Except String Unit
  deriving Repr

/-- Model of `dap_taltech/utils/data_getters.py`, `DataGetter.__init__` in terms of the
observable filesystem state: `dirListing` is `none` when the local data
directory does not exist (then `os.listdir` raises `FileNotFoundError`) and
`some files` otherwise; when the listing is empty the constructor runs the
`aws s3 cp` synchronization through `os.system`, whose exit status (`syncOk`)
it discards; in remote mode no filesystem access happens. -/
def dataGetterInit (loc : Bool) (dirListing : Option (List String)) (syncOk : Bool) :
    InitTrace :=
  if loc then
    match dirListing with
    | none => { syncAttempted := false, result := Except.error "FileNotFoundError" }
    | some files =>
      if files.length = 0 then
        let _ := syncOk
        { syncAttempted := true, result := Except.ok () }
      else { syncAttempted := false, result := Except.ok () }
  else { syncAttempted := false, result := Except.ok () }

/-! ## Helper lemmas -/

theorem foldl_max_spec (xs : List Nat) (a : Nat) :
    a ≤ xs.foldl Nat.max a ∧ (∀ x ∈ xs, x ≤ xs.foldl Nat.max a) ∧
      (xs.foldl Nat.max a = a ∨ xs.foldl Nat.max a ∈ xs) := by
  induction xs generalizing a with
  | nil => simp
  | cons x xs ih =>
    obtain ⟨h1, h2, h3⟩ := ih (Nat.max a x)
    refine ⟨le_trans (Nat.le_max_left a x) h1, ?_, ?_⟩
    · intro y hy
      rcases List.mem_cons.mp hy with rfl | hy
      · exact le_trans (Nat.le_max_right a y) h1
      · exact h2 y hy
    · rcases h3 with h3 | h3
      · rcases Nat.le_total x a with hm | hm
        · left; rw [List.foldl_cons, h3]
          unfold Nat.max; exact sup_eq_left.mpr hm
        · right; rw [List.foldl_cons, h3]
          have hx : a.max x = x := by unfold Nat.max; exact sup_eq_right.mpr hm
          rw [hx]; exact List.mem_cons_self x xs
      · right; exact List.mem_cons_of_mem x h3

theorem pyMax_spec {l : List Nat} {m : Nat} (h : pyMax l = some m) :
    m ∈ l ∧ ∀ x ∈ l, x ≤ m := by
  match l with
  | [] => simp [pyMax] at h
  | x :: xs =>
    simp only [pyMax, Option.some.injEq] at h
    obtain ⟨h1, h2, h3⟩ := foldl_max_spec xs x
    subst h
    refine ⟨?_, ?_⟩
    · rcases h3 with h3 | h3
      · rw [h3]; exact List.mem_cons_self x xs
      · exact List.mem_cons_of_mem x h3
    · intro y hy
      rcases List.mem_cons.mp hy with rfl | hy
      · exact h1
      · exact h2 y hy

theorem pyMax_isSome {l : List Nat} (h : l ≠ []) : ∃ m, pyMax l = some m := by
  match l with
  | [] => exact absurd rfl h
  | x :: xs => exact ⟨xs.foldl Nat.max x, rfl⟩

theorem fill_positions_length (w : String) (ps : List Nat) (acc : List String) :
    (fill_positions w ps acc).length = acc.length := by
  induction ps generalizing acc with
  | nil => rfl
  | cons i ps ih => simp [fill_positions, List.foldl_cons] at ih ⊢; rw [ih]; simp

theorem fill_positions_not_mem {w : String} {ps : List Nat} {p : Nat} (acc : List String)
    (h : p ∉ ps) : (fill_positions w ps acc)[p]? = acc[p]? := by
  induction ps generalizing acc with
  | nil => rfl
  | cons i ps ih =>
    simp only [List.mem_cons, not_or] at h
    show (fill_positions w ps (acc.set i w))[p]? = acc[p]?
    rw [ih _ h.2, List.getElem?_set_ne (fun hip => h.1 hip.symm)]

theorem fill_positions_mem {w : String} {ps : List Nat} {p : Nat} (acc : List String)
    (hmem : p ∈ ps) (hlt : p < acc.length) : (fill_positions w ps acc)[p]? = some w := by
  induction ps generalizing acc with
  | nil => cases hmem
  | cons i ps ih =>
    show (fill_positions w ps (acc.set i w))[p]? = some w
    by_cases hp : p ∈ ps
    · exact ih _ hp (by simpa using hlt)
    · have hip : p = i := by
        rcases List.mem_cons.mp hmem with h | h
        · exact h
        · exact absurd h hp
      subst hip
      rw [fill_positions_not_mem _ hp, List.getElem?_set_self hlt]

theorem fill_index_length (idx : List (String × List Nat)) (acc : List String) :
    (fill_index idx acc).length = acc.length := by
  induction idx generalizing acc with
  | nil => rfl
  | cons e idx ih =>
    show (fill_index idx (fill_positions e.1 e.2 acc)).length = acc.length
    rw [ih, fill_positions_length]

theorem fill_index_not_covered {idx : List (String × List Nat)} {p : Nat} (acc : List String)
    (h : ∀ e ∈ idx, p ∉ e.2) : (fill_index idx acc)[p]? = acc[p]? := by
  induction idx generalizing acc with
  | nil => rfl
  | cons e idx ih =>
    show (fill_index idx (fill_positions e.1 e.2 acc))[p]? = acc[p]?
    rw [ih _ (fun e' he' => h e' (List.mem_cons_of_mem e he')),
      fill_positions_not_mem _ (h e (List.mem_cons_self e idx))]

theorem fill_index_covered {idx : List (String × List Nat)} {p : Nat} {w : String}
    (acc : List String) (hagree : ∀ e ∈ idx, p ∈ e.2 → e.1 = w)
    (hcov : ∃ e ∈ idx, p ∈ e.2) (hlt : p < acc.length) :
    (fill_index idx acc)[p]? = some w := by
  induction idx generalizing acc with
  | nil => simp at hcov
  | cons e idx ih =>
    show (fill_index idx (fill_positions e.1 e.2 acc))[p]? = some w
    by_cases hrest : ∃ e' ∈ idx, p ∈ e'.2
    · exact ih _ (fun e' he' => hagree e' (List.mem_cons_of_mem e he')) hrest
        (by rw [fill_positions_length]; exact hlt)
    · have hpe : p ∈ e.2 := by
        rcases hcov with ⟨e', he', hp⟩
        rcases List.mem_cons.mp he' with rfl | he'
        · exact hp
        · exact absurd ⟨e', he', hp⟩ hrest
      push_neg at hrest
      rw [fill_index_not_covered _ hrest,
        fill_positions_mem _ hpe hlt,
        hagree e (List.mem_cons_self e idx) hpe]

theorem intercalate_go_data (acc s : String) (l : List String) :
    (String.intercalate.go acc s l).data =
      acc.data ++ (l.map (fun x => s.data ++ x.data)).flatten := by
  induction l generalizing acc with
  | nil => simp [String.intercalate.go]
  | cons a as ih => simp [String.intercalate.go, ih]

theorem joinSp_cons_flatten (w : List Char) (ws : List (List Char)) :
    joinSp (w :: ws) = w ++ (ws.map (fun x => ' ' :: x)).flatten := by
  induction ws generalizing w with
  | nil => simp [joinSp]
  | cons y t ih => simp [joinSp, ih y]

theorem intercalate_space_data (ws : List String) :
    (String.intercalate " " ws).data = joinSp (ws.map String.data) := by
  match ws with
  | [] => rfl
  | a :: as =>
    show (String.intercalate.go a " " as).data = _
    rw [intercalate_go_data, List.map_cons, joinSp_cons_flatten, List.map_map]
    rfl

theorem splitSp_no_space {w : List Char} (h : ' ' ∉ w) : splitSp w = [w] := by
  induction w with
  | nil => rfl
  | cons c cs ih =>
    simp only [List.mem_cons, not_or] at h
    rw [splitSp, if_neg (fun hc => h.1 hc.symm), ih h.2]

theorem splitSp_append_space {w : List Char} (t : List Char) (h : ' ' ∉ w) :
    splitSp (w ++ ' ' :: t) = w :: splitSp t := by
  induction w with
  | nil => simp [splitSp]
  | cons c cs ih =>
    simp only [List.mem_cons, not_or] at h
    rw [List.cons_append, splitSp, if_neg (fun hc => h.1 hc.symm), ih h.2]

theorem splitSp_joinSp {ws : List (List Char)} (hne : ws ≠ [])
    (h : ∀ w ∈ ws, ' ' ∉ w) : splitSp (joinSp ws) = ws := by
  induction ws with
  | nil => exact absurd rfl hne
  | cons w t ih =>
    match t with
    | [] => exact splitSp_no_space (h w (List.mem_cons_self w []))
    | y :: t' =>
      show splitSp (w ++ ' ' :: joinSp (y :: t')) = _
      rw [splitSp_append_space _ (h w (List.mem_cons_self w _)),
        ih (by simp) (fun x hx => h x (List.mem_cons_of_mem w hx))]

theorem split_whitespace_intercalate (ws : List String) (hne : ws ≠ [])
    (h : ∀ w ∈ ws, ' ' ∉ w.data) :
    split_whitespace (String.intercalate " " ws) = ws := by
  rw [split_whitespace, intercalate_space_data,
    splitSp_joinSp (by simpa using hne) (by simpa using h), List.map_map]
  have hmk : (String.mk ∘ String.data) = id := by
    funext s; cases s; rfl
  rw [hmk, List.map_id]

theorem revert_abstract_index_eq {aii : List (String × List Nat)} {m : Nat}
    (hmax : pyMax ((aii.map Prod.snd).flatten) = some m) :
    revert_abstract_index aii =
      Except.ok (String.intercalate " " (fill_index aii (List.replicate (m + 1) ""))) := by
  rw [revert_abstract_index, hmax]

theorem mem_flatten_positions {aii : List (String × List Nat)} {p : Nat} :
    p ∈ (aii.map Prod.snd).flatten ↔ ∃ e ∈ aii, p ∈ e.2 := by
  simp only [List.mem_flatten, List.mem_map]
  constructor
  · rintro ⟨l, ⟨e, he, rfl⟩, hp⟩
    exact ⟨e, he, hp⟩
  · rintro ⟨e, he, hp⟩
    exact ⟨e.2, ⟨e, he, rfl⟩, hp⟩

/-! ## Claims -/

/-- C1: for every non-empty inverted index mapping words to non-empty lists of
non-negative integer positions (an inverted index of a text: no position is
claimed by two different words), `revert_abstract_index` returns the
space-join of exactly `max(position) + 1` slots, where each slot holding a
recorded position contains its word and every slot not covered by any word is
the empty string; in particular the index
`⦃"the": [0], "cat": [1], "sat": [2]⦄` yields `"the cat sat"` and
`⦃"a": [0, 2]⦄` yields `"a  a"`. -/
theorem C1_revert_abstract_index_slots :
    (∀ (aii : List (String × List Nat)) (m : Nat),
      aii ≠ [] → (∀ e ∈ aii, e.2 ≠ []) →
      (∀ e1 ∈ aii, ∀ e2 ∈ aii, ∀ p ∈ e1.2, p ∈ e2.2 → e1.1 = e2.1) →
      pyMax ((aii.map Prod.snd).flatten) = some m →
      ∃ slots : List String,
        revert_abstract_index aii = Except.ok (String.intercalate " " slots) ∧
        slots.length = m + 1 ∧
        (∀ e ∈ aii, ∀ p ∈ e.2, slots[p]? = some e.1) ∧
        (∀ p ≤ m, (∀ e ∈ aii, p ∉ e.2) → slots[p]? = some "")) ∧
    revert_abstract_index [("the", [0]), ("cat", [1]), ("sat", [2])] =
      Except.ok "the cat sat" ∧
    revert_abstract_index [("a", [0, 2])] = Except.ok "a  a" := by
  refine ⟨?_, rfl, rfl⟩
  intro aii m _ _ hdisj hmax
  refine ⟨fill_index aii (List.replicate (m + 1) ""), revert_abstract_index_eq hmax, ?_, ?_, ?_⟩
  · rw [fill_index_length, List.length_replicate]
  · intro e he p hp
    have hple : p ≤ m :=
      (pyMax_spec hmax).2 p (mem_flatten_positions.mpr ⟨e, he, hp⟩)
    exact fill_index_covered _ (fun e' he' hp' => hdisj e' he' e he p hp' hp)
      ⟨e, he, hp⟩ (by simpa using Nat.lt_succ_of_le hple)
  · intro p _ hnc
    rw [fill_index_not_covered _ hnc]
    exact List.getElem?_replicate_of_lt (by omega)

theorem C1_witness :
    ∃ slots : List String,
      revert_abstract_index [("the", [0]), ("cat", [1]), ("sat", [2])] =
        Except.ok (String.intercalate " " slots) ∧
      slots.length = 3 ∧
      (∀ e ∈ [("the", [0]), ("cat", [1]), ("sat", [2])], ∀ p ∈ e.2, slots[p]? = some e.1) ∧
      (∀ p ≤ 2, (∀ e ∈ [("the", [0]), ("cat", [1]), ("sat", [2])], p ∉ e.2) →
        slots[p]? = some "") :=
  C1_revert_abstract_index_slots.1 [("the", [0]), ("cat", [1]), ("sat", [2])] 2
    (by decide) (by decide) (by decide) (by decide)

/-- C5: for every inverted index built from an original word sequence `ws`
with no positional gaps — every position `0 ≤ p < ws.length` is covered, and a
word's recorded positions carry that word in `ws` — splitting the output of
`revert_abstract_index` on whitespace yields `ws` itself, the original word
order (words being whitespace-delimited tokens: non-empty and space-free). -/
theorem C5_reconstruct_split_roundtrip (aii : List (String × List Nat)) (ws : List String)
    (hne : ws ≠ [])
    (hword : ∀ w ∈ ws, w.data ≠ [] ∧ ' ' ∉ w.data)
    (hcons : ∀ e ∈ aii, ∀ p ∈ e.2, ws[p]? = some e.1)
    (hcover : ∀ p < ws.length, ∃ e ∈ aii, p ∈ e.2) :
    ∃ text, revert_abstract_index aii = Except.ok text ∧ split_whitespace text = ws := by
  have hlen0 : 0 < ws.length := List.length_pos.mpr hne
  have hflat : ∀ p ∈ (aii.map Prod.snd).flatten, p < ws.length := by
    intro p hp
    obtain ⟨e, he, hpe⟩ := mem_flatten_positions.mp hp
    have := hcons e he p hpe
    exact List.getElem?_eq_some.mp this |>.1
  have hflat_ne : (aii.map Prod.snd).flatten ≠ [] := by
    intro hnil
    obtain ⟨e, he, hpe⟩ := hcover 0 hlen0
    have : (0 : Nat) ∈ (aii.map Prod.snd).flatten := mem_flatten_positions.mpr ⟨e, he, hpe⟩
    rw [hnil] at this
    cases this
  obtain ⟨m, hmax⟩ := pyMax_isSome hflat_ne
  have hm1 : m + 1 = ws.length := by
    have hmlt : m < ws.length := hflat m (pyMax_spec hmax).1
    have hle : ws.length - 1 ≤ m := by
      obtain ⟨e, he, hpe⟩ := hcover (ws.length - 1) (by omega)
      exact (pyMax_spec hmax).2 _ (mem_flatten_positions.mpr ⟨e, he, hpe⟩)
    omega
  have hslots : fill_index aii (List.replicate (m + 1) "") = ws := by
    apply List.ext_getElem?
    intro p
    by_cases hp : p < ws.length
    · obtain ⟨e, he, hpe⟩ := hcover p hp
      have hpw : ws[p]? = some e.1 := hcons e he p hpe
      rw [fill_index_covered _ ?_ ⟨e, he, hpe⟩ (by simpa [hm1] using hp), hpw]
      intro e' he' hpe'
      have := hcons e' he' p hpe'
      rw [hpw] at this
      exact (Option.some.injEq _ _ ▸ this.symm :)
    · have h1 : (fill_index aii (List.replicate (m + 1) ""))[p]? = none := by
        apply List.getElem?_eq_none
        rw [fill_index_length, List.length_replicate, hm1]
        exact Nat.le_of_not_lt hp
      have h2 : ws[p]? = none := List.getElem?_eq_none (Nat.le_of_not_lt hp)
      rw [h1, h2]
  refine ⟨String.intercalate " " ws, ?_, ?_⟩
  · rw [revert_abstract_index_eq hmax, hslots]
  · exact split_whitespace_intercalate ws hne (fun w hw => (hword w hw).2)

theorem C5_witness :
    ∃ text,
      revert_abstract_index [("the", [0]), ("cat", [1]), ("sat", [2])] = Except.ok text ∧
      split_whitespace text = ["the", "cat", "sat"] :=
  C5_reconstruct_split_roundtrip [("the", [0]), ("cat", [1]), ("sat", [2])]
    ["the", "cat", "sat"] (by decide) (by decide) (by decide) (by decide)

theorem cursorLoop_falsy {α : Type} (rs : List (OAResp α)) {c : CursorV}
    (hc : c.truthy = false) : cursorLoop rs c = [] := by
  cases rs with
  | nil => rfl
  | cons r rest => simp [cursorLoop, hc]

theorem map_fst_zip_take {α β : Type} (l1 : List α) (l2 : List β) :
    (l1.zip l2).map Prod.fst = l1.take l2.length := by
  induction l1 generalizing l2 with
  | nil => simp
  | cons a l1 ih =>
    cases l2 with
    | nil => simp
    | cons b l2 => simp [List.zip_cons_cons, ih]

theorem map_snd_zip_take {α β : Type} (l1 : List α) (l2 : List β) :
    (l1.zip l2).map Prod.snd = l2.take l1.length := by
  induction l1 generalizing l2 with
  | nil => simp
  | cons a l1 ih =>
    cases l2 with
    | nil => simp
    | cons b l2 => simp [List.zip_cons_cons, ih]

theorem cursorLoop_truthy_step {α : Type} (r : OAResp α) (l : List (OAResp α)) {c : CursorV}
    (hc : c.truthy = true) :
    cursorLoop (r :: l) c = (c, r.results) :: cursorLoop l (nextCursor r) := by
  simp [cursorLoop, hc]

theorem cursorLoop_run {α : Type} (rest : List (OAResp α)) :
    ∀ (a : OAResp α) (ext : List (OAResp α)) (c : CursorV),
      c.truthy = true →
      (∀ r ∈ (a :: rest).dropLast, (nextCursor r).truthy = true) →
      (nextCursor ((a :: rest).getLast (List.cons_ne_nil a rest))).truthy = false →
      cursorLoop ((a :: rest) ++ ext) c =
        (c :: (a :: rest).map nextCursor).zip ((a :: rest).map OAResp.results) := by
  induction rest with
  | nil =>
    intro a ext c hc _ hlast
    simp only [List.getLast_singleton] at hlast
    rw [List.cons_append, List.nil_append, cursorLoop_truthy_step a ext hc,
      cursorLoop_falsy ext hlast]
    simp [List.zip_cons_cons]
  | cons b t ih =>
    intro a ext c hc hmid hlast
    have hb : (nextCursor a).truthy = true := by
      apply hmid
      rw [List.dropLast_cons₂]
      exact List.mem_cons_self a _
    rw [List.cons_append, cursorLoop_truthy_step a ((b :: t) ++ ext) hc,
      ih b ext (nextCursor a) hb ?_ ?_]
    · simp [List.zip_cons_cons]
    · intro r hr
      apply hmid
      rw [List.dropLast_cons₂]
      exact List.mem_cons_of_mem a hr
    · have := hlast
      rwa [List.getLast_cons (List.cons_ne_nil b t)] at this

theorem nextCursor_falsy {α : Type} {r : OAResp α}
    (h : r.next_cursor = some CursorV.fls ∨ r.next_cursor = none) :
    (nextCursor r).truthy = false := by
  rcases h with h | h <;> simp [nextCursor, h, CursorV.truthy]

/-- C2: if the endpoint returns a (truthy) `next_cursor` for each of the first
`N - 1` pages and the `N`-th response has `next_cursor: false` or no
`next_cursor` key at all, then both pagination generators yield exactly `N`
pages and terminate — even when further responses (`ext`) would be available,
none is requested.  Both the missing key and the explicit `false` terminate. -/
theorem C2_pagination_yields_n_pages {α : Type} (rs : List (OAResp α)) (N : Nat)
    (hN : 1 ≤ N) (hlen : rs.length = N)
    (hmid : ∀ r ∈ rs.dropLast, (nextCursor r).truthy = true)
    (hlast : ∀ (hne : rs ≠ []), (rs.getLast hne).next_cursor = some CursorV.fls ∨
      (rs.getLast hne).next_cursor = none) :
    ∀ ext : List (OAResp α),
      (works_generator (rs ++ ext)).map Prod.snd = rs.map OAResp.results ∧
      (works_generator (rs ++ ext)).length = N ∧
      (institutions_generator (rs ++ ext)).map Prod.snd = rs.map OAResp.results ∧
      (institutions_generator (rs ++ ext)).length = N := by
  intro ext
  cases rs with
  | nil => simp at hlen; omega
  | cons a rest =>
    have hrun := cursorLoop_run rest a ext (CursorV.str "*") rfl hmid
      (nextCursor_falsy (hlast (List.cons_ne_nil a rest)))
    have hsnd : (works_generator ((a :: rest) ++ ext)).map Prod.snd =
        (a :: rest).map OAResp.results := by
      rw [works_generator, hrun, map_snd_zip_take, List.take_of_length_le]
      simp
    have hlength : (works_generator ((a :: rest) ++ ext)).length = N := by
      have h2 := congrArg List.length hsnd
      rw [List.length_map, List.length_map] at h2
      exact h2.trans hlen
    exact ⟨hsnd, hlength, hsnd, hlength⟩

theorem C2_witness :
    (works_generator
        ([⟨[1, 2], some (CursorV.str "a")⟩, ⟨[3], some CursorV.fls⟩] ++
          [⟨[9], some (CursorV.str "z")⟩])).map Prod.snd = [[1, 2], [3]] ∧
    (works_generator
        ([(⟨[1, 2], some (CursorV.str "a")⟩ : OAResp (List Nat)),
          ⟨[3], some CursorV.fls⟩] ++ [⟨[9], some (CursorV.str "z")⟩])).length = 2 := by
  have h := C2_pagination_yields_n_pages
    [(⟨[1, 2], some (CursorV.str "a")⟩ : OAResp (List Nat)), ⟨[3], some CursorV.fls⟩] 2
    (by omega) rfl (by intro r hr; simp at hr; subst hr; rfl)
    (fun _ => Or.inl rfl) [⟨[9], some (CursorV.str "z")⟩]
  exact ⟨h.1.trans rfl, h.2.1⟩

/-- C9: across a terminating run of either pagination generator, assuming the
server issues pairwise distinct continuation tokens (all distinct from the
start-of-stream marker `"*"`), the trace of tokens sent is the start marker
followed by each response's next cursor — every iteration sends the current
token and replaces it with the response's token — and no token is ever sent
in two requests. -/
theorem C9_tokens_single_use {α : Type} (rs : List (OAResp α)) (N : Nat)
    (hN : 1 ≤ N) (hlen : rs.length = N)
    (hmid : ∀ r ∈ rs.dropLast, (nextCursor r).truthy = true)
    (hlast : ∀ (hne : rs ≠ []), (rs.getLast hne).next_cursor = some CursorV.fls ∨
      (rs.getLast hne).next_cursor = none)
    (hnodup : (CursorV.str "*" :: rs.map nextCursor).Nodup) :
    ∀ ext : List (OAResp α),
      (works_generator (rs ++ ext)).map Prod.fst =
        CursorV.str "*" :: rs.dropLast.map nextCursor ∧
      ((works_generator (rs ++ ext)).map Prod.fst).Nodup ∧
      (institutions_generator (rs ++ ext)).map Prod.fst =
        CursorV.str "*" :: rs.dropLast.map nextCursor ∧
      ((institutions_generator (rs ++ ext)).map Prod.fst).Nodup := by
  intro ext
  cases rs with
  | nil => simp at hlen; omega
  | cons a rest =>
    have hrun := cursorLoop_run rest a ext (CursorV.str "*") rfl hmid
      (nextCursor_falsy (hlast (List.cons_ne_nil a rest)))
    have hfst : (works_generator ((a :: rest) ++ ext)).map Prod.fst =
        CursorV.str "*" :: (a :: rest).dropLast.map nextCursor := by
      rw [works_generator, hrun, map_fst_zip_take, List.length_map, List.length_cons,
        List.take_succ_cons, List.map_dropLast, List.dropLast_eq_take]
      simp
    have hnd : ((works_generator ((a :: rest) ++ ext)).map Prod.fst).Nodup := by
      rw [works_generator, hrun, map_fst_zip_take]
      exact hnodup.sublist (List.take_sublist _ _)
    exact ⟨hfst, hnd, hfst, hnd⟩

theorem C9_witness :
    (works_generator
        ([(⟨[1, 2], some (CursorV.str "a")⟩ : OAResp (List Nat)),
          ⟨[3], some CursorV.fls⟩] ++ [⟨[9], some (CursorV.str "z")⟩])).map Prod.fst =
      [CursorV.str "*", CursorV.str "a"] ∧
    ((works_generator
        ([(⟨[1, 2], some (CursorV.str "a")⟩ : OAResp (List Nat)),
          ⟨[3], some CursorV.fls⟩] ++ [⟨[9], some (CursorV.str "z")⟩])).map Prod.fst).Nodup := by
  have h := C9_tokens_single_use
    [(⟨[1, 2], some (CursorV.str "a")⟩ : OAResp (List Nat)), ⟨[3], some CursorV.fls⟩] 2
    (by omega) rfl (by intro r hr; simp at hr; subst hr; rfl)
    (fun _ => Or.inl rfl) (by decide) [⟨[9], some (CursorV.str "z")⟩]
  exact ⟨h.1.trans rfl, h.2.1⟩

theorem lookup_setField_self (r : Record) (k : String) (v : Val) :
    (setField r k v).lookup k = some v := by
  induction r with
  | nil => simp [setField, List.lookup]
  | cons e rest ih =>
    by_cases hk : e.1 = k
    · simp [setField, hk, List.lookup]
    · have hb : (k == e.1) = false := beq_eq_false_iff_ne.mpr (Ne.symm hk)
      simp [setField, if_neg hk, List.lookup, hb, ih]

theorem lookup_setField_ne (r : Record) {k k' : String} (v : Val) (h : k' ≠ k) :
    (setField r k v).lookup k' = r.lookup k' := by
  induction r with
  | nil =>
    have hb : (k' == k) = false := beq_eq_false_iff_ne.mpr h
    simp [setField, List.lookup, hb]
  | cons e rest ih =>
    by_cases hk : e.1 = k
    · subst hk
      have hb : (k' == e.1) = false := beq_eq_false_iff_ne.mpr h
      simp [setField, List.lookup, hb]
    · simp only [setField, if_neg hk]
      cases hb : (k' == e.1) <;> simp [List.lookup, hb, ih]

theorem countP_dropDupSeen (q : Record → Bool) (i : Option Val) :
    ∀ (rows : List Record) (seen : List (Option Val)),
      (dropDupSeen seen rows).countP (fun r => decide (rowId r = i) && q r) =
        if i ∈ seen then 0 else
          match rows.find? (fun r => decide (rowId r = i)) with
          | some r => if q r then 1 else 0
          | none => 0 := by
  intro rows
  induction rows with
  | nil => intro seen; simp [dropDupSeen]
  | cons r rest ih =>
    intro seen
    by_cases hri : rowId r = i
    · subst hri
      rw [List.find?_cons_of_pos _ (by simp)]
      by_cases hmem : rowId r ∈ seen
      · rw [dropDupSeen, if_pos hmem, ih seen, if_pos hmem, if_pos hmem]
      · rw [dropDupSeen, if_neg hmem, if_neg hmem, List.countP_cons, ih
          (rowId r :: seen), if_pos (List.mem_cons_self _ _)]
        simp
    · rw [List.find?_cons_of_neg _ (by simp [hri])]
      by_cases hmem : rowId r ∈ seen
      · rw [dropDupSeen, if_pos hmem, ih seen]
      · rw [dropDupSeen, if_neg hmem, List.countP_cons, ih (rowId r :: seen)]
        have hms : (i ∈ rowId r :: seen) ↔ (i ∈ seen) := by
          constructor
          · intro h
            rcases List.mem_cons.mp h with h | h
            · exact absurd h.symm hri
            · exact h
          · exact fun h => List.mem_cons_of_mem _ h
        simp only [hms, hri]
        simp

/-- The pipeline `main_pipeline` written as map-of-filter-of-dedup (definitional). -/
theorem main_pipeline_eq (rows : List Record) :
    main_pipeline rows =
      ((drop_duplicates rows).filter (fun r => isNotNA (rowDate r))).map
        (fun r => setField r "publication_date" (pd_to_datetime ((rowDate r).getD Val.null))) :=
  rfl

theorem pd_to_datetime_ne_null {v : Val} (h : v ≠ Val.null) :
    pd_to_datetime v ≠ Val.null := by
  cases v <;> simp [pd_to_datetime] at h ⊢

theorem rowId_assign_date (r : Record) (v : Val) :
    rowId (setField r "publication_date" v) = rowId r :=
  lookup_setField_ne r v (by decide)

/-- C4: calling `revert_abstract_index` on an empty mapping fails with the
invalid-input error Python's `max` raises on an empty sequence
(a `ValueError`), rather than computing a negative-length buffer or returning
a value. -/
theorem C4_empty_mapping_error :
    revert_abstract_index [] =
      Except.error "ValueError: max() arg is an empty sequence" := rfl

/-- C3 (amended): the orchestrator pipeline of `main` over a harvested table
keeps, for each distinct primary identifier, exactly its first-occurring row
if that row's `publication_date` is non-null and no row otherwise — hence at
most (not always exactly) one row per unique identifier — and no row with a
null `publication_date` ever appears in the output. -/
theorem C3_dedup_and_null_date_filter :
    (∀ (rows : List Record) (i : Option Val),
      (main_pipeline rows).countP (fun r => decide (rowId r = i)) =
        match rows.find? (fun r => decide (rowId r = i)) with
        | some r => if isNotNA (rowDate r) then 1 else 0
        | none => 0) ∧
    (∀ (rows : List Record), ∀ r ∈ main_pipeline rows, isNotNA (rowDate r) = true) := by
  constructor
  · intro rows i
    rw [main_pipeline_eq, List.countP_map]
    have hcomp : ((fun r => decide (rowId r = i)) ∘
        (fun r => setField r "publication_date" (pd_to_datetime ((rowDate r).getD Val.null))))
        = fun r => decide (rowId r = i) := by
      funext r
      simp [Function.comp, rowId_assign_date]
    rw [hcomp, List.countP_filter, drop_duplicates,
      countP_dropDupSeen (fun r => isNotNA (rowDate r)) i rows []]
    simp
  · intro rows r hr
    rw [main_pipeline_eq] at hr
    obtain ⟨r', hr', rfl⟩ := List.mem_map.mp hr
    have hq : isNotNA (rowDate r') = true := (List.mem_filter.mp hr').2
    have hd : rowDate (setField r' "publication_date"
        (pd_to_datetime ((rowDate r').getD Val.null))) =
        some (pd_to_datetime ((rowDate r').getD Val.null)) :=
      lookup_setField_self r' "publication_date" _
    rw [hd]
    match hv : rowDate r' with
    | some v =>
      rw [hv] at hq
      simp only [isNotNA, decide_eq_true_eq] at hq
      simp [isNotNA, Option.getD, pd_to_datetime_ne_null hq]
    | none => rw [hv] at hq; simp [isNotNA] at hq

theorem C3_witness :
    (main_pipeline [[("id", Val.str "a"), ("publication_date", Val.str "2020-01-01")]]).countP
        (fun r => decide (rowId r = some (Val.str "a"))) = 1 ∧
    isNotNA (rowDate [("id", Val.str "a"),
      ("publication_date", Val.dt "2020-01-01")]) = true := by
  constructor
  · have h := C3_dedup_and_null_date_filter.1
      [[("id", Val.str "a"), ("publication_date", Val.str "2020-01-01")]]
      (some (Val.str "a"))
    exact h.trans (by decide)
  · have h := C3_dedup_and_null_date_filter.2
      [[("id", Val.str "a"), ("publication_date", Val.str "2020-01-01")]]
      [("id", Val.str "a"), ("publication_date", Val.dt "2020-01-01")] (by decide)
    exact h

/-- C3 counterexample: with a table whose repeated identifier `"a"` first
occurs on a row with no `publication_date`, `drop_duplicates` (which runs
before the null-date filter) keeps exactly that null-date row, the filter then
drops it, and the output contains zero rows for `"a"` — not exactly one row
per unique identifier. -/
theorem C3_counterexample :
    ¬ (∀ (rows : List Record) (i : Option Val), i ∈ rows.map rowId →
        (main_pipeline rows).countP (fun r => decide (rowId r = i)) = 1) := by
  intro h
  have := h [[("id", Val.str "a")],
    [("id", Val.str "a"), ("publication_date", Val.str "2020-01-01")]]
    (some (Val.str "a")) (by decide)
  exact absurd this (by decide)

theorem process_pages_drop_page (xs ys : List (List Record)) (p : List Record)
    (hp : pageNeutral p) :
    process_pages (xs ++ p :: ys) = process_pages (xs ++ ys) := by
  induction xs with
  | nil =>
    rcases hp with rfl | ⟨hsome, hproj⟩
    · simp [process_pages]
    · match hmm : transform_works p with
      | none => rw [hmm] at hsome; cases hsome
      | some tp =>
        rw [hmm] at hproj
        simp only [Option.getD_some] at hproj
        by_cases hpe : p.isEmpty
        · simp [process_pages, hpe]
        · simp [process_pages, hpe, hmm, hproj]
  | cons x xs ih =>
    rw [List.cons_append, List.cons_append]
    simp only [process_pages, ih]

theorem harvest_insts_congr_middle (pre post : List (List (List Record)))
    (A B : List (List Record)) (h : process_pages A = process_pages B) :
    harvest_insts (pre ++ A :: post) = harvest_insts (pre ++ B :: post) := by
  induction pre with
  | nil =>
    rw [List.nil_append, List.nil_append]
    simp only [harvest_insts, h]
  | cons q pre ih =>
    rw [List.cons_append, List.cons_append]
    simp only [harvest_insts, ih]

/-- C6: a page whose records cannot be projected to `COLUMNS` is dropped while
the pages before and after it are processed unchanged, and likewise a page
fetch returning no results is skipped — in the page loop of one institution,
and in the whole harvest without terminating the runs of other identifiers. -/
theorem C6_failed_pages_dropped :
    (∀ (xs ys : List (List Record)) (p : List Record), pageNeutral p →
      process_pages (xs ++ p :: ys) = process_pages (xs ++ ys)) ∧
    (∀ (pre post : List (List (List Record))) (xs ys : List (List Record))
        (p : List Record), pageNeutral p →
      get_all_works (pre ++ (xs ++ p :: ys) :: post) =
        get_all_works (pre ++ (xs ++ ys) :: post)) := by
  refine ⟨process_pages_drop_page, ?_⟩
  intro pre post xs ys p hp
  rw [get_all_works, get_all_works,
    harvest_insts_congr_middle pre post _ _ (process_pages_drop_page xs ys p hp)]

theorem process_pages_all_neutral (pages : List (List Record))
    (h : ∀ p ∈ pages, pageNeutral p) : process_pages pages = Except.ok [] := by
  induction pages with
  | nil => rfl
  | cons p rest ih =>
    have hrest := ih (fun q hq => h q (List.mem_cons_of_mem p hq))
    have hdrop := process_pages_drop_page [] rest p (h p (List.mem_cons_self p rest))
    simp only [List.nil_append] at hdrop
    rw [hdrop, hrest]

theorem harvest_insts_all_neutral (insts : List (List (List Record)))
    (h : ∀ pages ∈ insts, ∀ p ∈ pages, pageNeutral p) :
    harvest_insts insts = Except.ok [] := by
  induction insts with
  | nil => rfl
  | cons pages rest ih =>
    simp only [harvest_insts,
      process_pages_all_neutral pages (h pages (List.mem_cons_self pages rest)),
      ih (fun q hq => h q (List.mem_cons_of_mem pages hq))]
    rfl

theorem foldl_append_empty_pages (pages : List (List Record)) :
    ∀ acc : List (List Record), (∀ p ∈ pages, p = []) →
      pages.foldl (fun acc p => if p.isEmpty then acc else acc ++ [p]) acc = acc := by
  induction pages with
  | nil => intro acc _; rfl
  | cons p rest ih =>
    intro acc h
    have hp : p = [] := h p (List.mem_cons_self p rest)
    subst hp
    simp only [List.foldl_cons, List.isEmpty_nil, if_true]
    exact ih acc (fun q hq => h q (List.mem_cons_of_mem [] hq))

/-- C10: when no page across all identifiers contributes projectable records
(each page is empty or unprojectable), `get_all_works` returns an empty table
rather than raising, and likewise `get_all_institutions` when every fetched
page is empty. -/
theorem C10_empty_harvest_ok :
    (∀ insts : List (List (List Record)),
      (∀ pages ∈ insts, ∀ p ∈ pages, pageNeutral p) →
      get_all_works insts = Except.ok []) ∧
    (∀ pages : List (List Record), (∀ p ∈ pages, p = []) →
      get_all_institutions pages = []) := by
  constructor
  · intro insts h
    rw [get_all_works, harvest_insts_all_neutral insts h]
    rfl
  · intro pages h
    rw [get_all_institutions, foldl_append_empty_pages pages [] h]
    rfl

theorem C6_witness :
    process_pages ([] ++ [[("id", Val.str "https://openalex.org/W2")]] ::
        [[[("id", Val.str "https://openalex.org/W1"), ("display_name", Val.str "T"),
           ("publication_date", Val.str "2020-01-01"), ("primary_location", Val.obj),
           ("authorships", Val.obj), ("cited_by_count", Val.num 3),
           ("counts_by_year", Val.obj), ("concepts", Val.obj),
           ("abstract_inverted_index", Val.invIdx [("hi", [0])])]]]) =
      process_pages ([] ++
        [[[("id", Val.str "https://openalex.org/W1"), ("display_name", Val.str "T"),
           ("publication_date", Val.str "2020-01-01"), ("primary_location", Val.obj),
           ("authorships", Val.obj), ("cited_by_count", Val.num 3),
           ("counts_by_year", Val.obj), ("concepts", Val.obj),
           ("abstract_inverted_index", Val.invIdx [("hi", [0])])]]]) :=
  C6_failed_pages_dropped.1 []
    [[[("id", Val.str "https://openalex.org/W1"), ("display_name", Val.str "T"),
       ("publication_date", Val.str "2020-01-01"), ("primary_location", Val.obj),
       ("authorships", Val.obj), ("cited_by_count", Val.num 3),
       ("counts_by_year", Val.obj), ("concepts", Val.obj),
       ("abstract_inverted_index", Val.invIdx [("hi", [0])])]]]
    [[("id", Val.str "https://openalex.org/W2")]] (Or.inr (by decide))

theorem C10_witness :
    get_all_works [[([] : List Record), [[("id", Val.str "W2")]]]] = Except.ok [] ∧
    get_all_institutions [[], []] = [] :=
  ⟨C10_empty_harvest_ok.1 [[([] : List Record), [[("id", Val.str "W2")]]]] (by decide),
   C10_empty_harvest_ok.2 [[], []] (by decide)⟩

/-- C7 (code bug): `DataGetter._fetch_data` performs no extension dispatch —
it reads every requested file, `.csv` included, with the columnar parquet
reader, so `get_armenian_job_adverts` hands `job_postings.csv` to
`pd.read_parquet` (which fails on a CSV file at runtime), no `.csv` file ever
reaches a delimited reader, and no "unsupported file type" error exists for
any other extension — contradicting the dispatch the spec describes, here
modelled by `fetch_data_spec`. -/
theorem C7_fetch_data_always_parquet :
    get_armenian_job_adverts "data" = ReaderCall.read_parquet "data/job_postings.csv" ∧
    fetch_data_spec "data" "job_postings.csv" =
      ReaderCall.read_csv "data/job_postings.csv" ∧
    fetch_data "data" "job_postings.csv" ≠ fetch_data_spec "data" "job_postings.csv" ∧
    fetch_data "data" "notes.txt" = ReaderCall.read_parquet "data/notes.txt" ∧
    fetch_data_spec "data" "notes.txt" = ReaderCall.unsupported "notes.txt" := by
  refine ⟨rfl, by decide, by decide, rfl, by decide⟩

/-- C8 counterexample: constructing `DataGetter` in local mode with a missing
dataset directory raises `FileNotFoundError` from `os.listdir` without ever
attempting the remote synchronization — refuting the claim that a missing
directory triggers an automatic synchronization before retrying the read. -/
theorem C8_counterexample :
    (dataGetterInit true none true).syncAttempted = false ∧
    (dataGetterInit true none true).result = Except.error "FileNotFoundError" :=
  ⟨rfl, rfl⟩

/-- C8 (amended): in local mode an existing but empty dataset directory
triggers the one-time remote synchronization, and construction succeeds
regardless of the synchronization's exit status (a failed sync is not fatal,
its exit code is discarded); a missing directory raises `FileNotFoundError`
without attempting a synchronization; a non-empty directory triggers none. -/
theorem C8_sync_empty_dir_only (files : List String) (syncOk : Bool)
    (h : files ≠ []) :
    (dataGetterInit true (some []) syncOk).syncAttempted = true ∧
    (dataGetterInit true (some []) syncOk).result = Except.ok () ∧
    (dataGetterInit true none syncOk).syncAttempted = false ∧
    (dataGetterInit true (some files) syncOk).syncAttempted = false ∧
    (dataGetterInit true (some files) syncOk).result = Except.ok () := by
  have hlen : ¬ files.length = 0 := by
    simpa [List.length_eq_zero] using h
  exact ⟨rfl, rfl, rfl, by simp [dataGetterInit, hlen], by simp [dataGetterInit, hlen]⟩

theorem C8_witness :
    (dataGetterInit true (some []) false).syncAttempted = true ∧
    (dataGetterInit true (some []) false).result = Except.ok () ∧
    (dataGetterInit true none false).syncAttempted = false ∧
    (dataGetterInit true (some ["patents_clean_EE.parquet"]) false).syncAttempted = false ∧
    (dataGetterInit true (some ["patents_clean_EE.parquet"]) false).result = Except.ok () :=
  C8_sync_empty_dir_only ["patents_clean_EE.parquet"] false (by decide)

end DapTaltech
